import Mathlib

/-!
Shallow embedding of the room-based chat engine in `src/chat-server.js`
(Express + Socket.IO server).  The server keeps two in-memory JavaScript
`Map`s:

* `rooms : Map(roomName -> { users: Map(socketId -> username), history })`
* `clients : Map(socketId -> { username, room })`

JavaScript `Map`s iterate in insertion order, `set` on an existing key
overwrites the value in place keeping its position, and `set` on a fresh key
appends; they are modelled here by association lists with exactly those
operations.  Each socket event handler (`joinRoom`, `leaveRoom`,
`chatMessage`, `typing`, `stopTyping`, `privateMessage`, `disconnect`) is
translated into a pure function from the server state to the new state plus
the list of emitted outbound events, with their delivery targets
(`socket.emit` / `io.to(id)` = unicast, `io.to(room)` = room multicast
including the sender, `socket.to(room)` = room multicast excluding the
sender).  `Date.now()` is passed in as an explicit `now : Nat` parameter.
-/

namespace ChatServer

/-- JS string coercion `String(x)` of an optional value: a missing field
(`undefined`) coerces to the literal string `"undefined"`. -/
def jsString : Option String → String
  | some s => s
  | none => "undefined"

/-- JS `s.trim()`: strip whitespace from both ends. -/
def jsTrim (s : String) : String :=
  ⟨((s.data.dropWhile Char.isWhitespace).reverse.dropWhile Char.isWhitespace).reverse⟩

/-- JS `s.substring(0, n)`: the first `n` characters (all of `s` if shorter). -/
def jsSubstring (s : String) (n : Nat) : String := ⟨s.data.take n⟩

/-- JS `arr.slice(-n)`: the last `n` elements (all of them if fewer). -/
def takeLast (n : Nat) (l : List α) : List α := l.drop (l.length - n)

/-- `Map.prototype.get`, on an insertion-ordered association list. -/
def mapGet [DecidableEq κ] (m : List (κ × α)) (k : κ) : Option α :=
  match m with
  | [] => none
  | (k₀, v₀) :: rest => if k₀ = k then some v₀ else mapGet rest k

/-- `Map.prototype.set`: overwrite in place if the key is present (keeping its
insertion position), otherwise append at the end. -/
def mapSet [DecidableEq κ] (m : List (κ × α)) (k : κ) (v : α) : List (κ × α) :=
  match m with
  | [] => [(k, v)]
  | (k₀, v₀) :: rest => if k₀ = k then (k, v) :: rest else (k₀, v₀) :: mapSet rest k v

/-- `Map.prototype.delete`: remove the entry with the given key, if any. -/
def mapDelete [DecidableEq κ] (m : List (κ × α)) (k : κ) : List (κ × α) :=
  match m with
  | [] => []
  | (k₀, v₀) :: rest => if k₀ = k then rest else (k₀, v₀) :: mapDelete rest k

/-- A client session stored in the `clients` map: chosen username and current
room (source line `clients.set(socket.id, { username, room })`). -/
structure Session where
  username : String
  room : String
  deriving DecidableEq, Repr

/-- A chat message `{ username, text, ts }`. -/
structure Message where
  username : String
  text : String
  ts : Nat
  deriving DecidableEq, Repr

/-- A room record `{ users: Map(socketId -> username), history: [...] }`. -/
structure Room where
  users : List (Nat × String)
  history : List Message
  deriving DecidableEq, Repr

/-- The whole in-memory server state: the `rooms` map and the `clients` map. -/
structure ServerState where
  rooms : List (String × Room)
  clients : List (Nat × Session)
  deriving DecidableEq, Repr

/-- Delivery target of an outbound event: `toSocket` is a unicast
(`socket.emit` to the sender or `io.to(socketId)`), `toRoom` is
`io.to(room)` (all members, sender included), `toRoomExcept` is
`socket.to(room)` (all members except the sender). -/
inductive Target where
  | toSocket (sid : Nat)
  | toRoom (room : String)
  | toRoomExcept (room : String) (sid : Nat)
  deriving DecidableEq, Repr

/-- Outbound event payloads emitted by the handlers. -/
inductive Out where
  | joined (room username : String) (users : List String) (history : List Message)
  | left (room username : String)
  | message (m : Message)
  | system (txt : String)
  | users (names : List String)
  | typing (username : String)
  | stopTyping
  | privateMessage (sender text : String) (ts : Nat)
  deriving DecidableEq, Repr

/-- One emission: a target together with a payload. -/
abbrev Emit := Target × Out

/-- Inbound socket events.  `username`/`room` of `joinRoom` are `Option`s so
that a payload with the field missing (JS `undefined`) can be expressed;
`now` is the value `Date.now()` returns while the handler runs. -/
inductive Event where
  | joinRoom (sid : Nat) (username room : Option String)
  | leaveRoom (sid : Nat)
  | chatMessage (sid : Nat) (text : String) (now : Nat)
  | typing (sid : Nat)
  | stopTyping (sid : Nat)
  | privateMessage (sid : Nat) (toName msgBody : String) (now : Nat)
  | disconnect (sid : Nat)
  deriving DecidableEq, Repr

/-- `String(username).trim().substring(0, 32) || 'Anonymous'`. -/
def normUsername (u : Option String) : String :=
  let t := jsSubstring (jsTrim (jsString u)) 32
  if t = "" then "Anonymous" else t

/-- `String(room).trim() || 'General'`. -/
def normRoom (r : Option String) : String :=
  let t := jsTrim (jsString r)
  if t = "" then "General" else t

/-- `ensureRoom(room)`: create `{ users: new Map(), history: [] }` if the room
is absent; returns the updated rooms map together with the room record. -/
def ensureRoom (rooms : List (String × Room)) (name : String) :
    List (String × Room) × Room :=
  match mapGet rooms name with
  | some r => (rooms, r)
  | none => (mapSet rooms name ⟨[], []⟩, ⟨[], []⟩)

/-- `r.history.push(msg); if (r.history.length > 200) r.history.shift();` —
append, then evict the single oldest entry when the length exceeds 200. -/
def appendHistory (h : List Message) (m : Message) : List Message :=
  let h₁ := h ++ [m]
  if 200 < h₁.length then h₁.tail else h₁

/-- Handler of `joinRoom { username, room }`. -/
def handleJoin (s : ServerState) (sid : Nat) (u rm : Option String) :
    ServerState × List Emit :=
  let username := normUsername u
  let room := normRoom rm
  let clients₁ := mapSet s.clients sid ⟨username, room⟩
  let er := ensureRoom s.rooms room
  let r := er.2
  let r₁ : Room := { r with users := mapSet r.users sid username }
  let rooms₁ := mapSet er.1 room r₁
  let history := takeLast 50 r.history
  let names := r₁.users.map Prod.snd
  (⟨rooms₁, clients₁⟩,
    [(.toRoomExcept room sid, .system (username ++ " has joined the room")),
     (.toRoom room, .users names),
     (.toSocket sid, .joined room username names history)])

/-- Handler of `leaveRoom` (no payload). -/
def handleLeave (s : ServerState) (sid : Nat) : ServerState × List Emit :=
  match mapGet s.clients sid with
  | none => (s, [])
  | some info =>
    match mapGet s.rooms info.room with
    | some r =>
      let r₁ : Room := { r with users := mapDelete r.users sid }
      let rooms₁ := mapSet s.rooms info.room r₁
      (⟨rooms₁, mapDelete s.clients sid⟩,
        [(.toSocket sid, .left info.room info.username),
         (.toRoomExcept info.room sid, .system (info.username ++ " has left the room")),
         (.toRoom info.room, .users (r₁.users.map Prod.snd))])
    | none => (⟨s.rooms, mapDelete s.clients sid⟩, [])

/-- Handler of `chatMessage <text>`. -/
def handleChat (s : ServerState) (sid : Nat) (text : String) (now : Nat) :
    ServerState × List Emit :=
  match mapGet s.clients sid with
  | none => (s, [(.toSocket sid, .system "Please join a room first")])
  | some info =>
    let msg : Message := ⟨info.username, jsSubstring text 1000, now⟩
    let er := ensureRoom s.rooms info.room
    let r := er.2
    let rooms₁ := mapSet er.1 info.room { r with history := appendHistory r.history msg }
    (⟨rooms₁, s.clients⟩, [(.toRoom info.room, .message msg)])

/-- Handler of `typing`. -/
def handleTyping (s : ServerState) (sid : Nat) : ServerState × List Emit :=
  match mapGet s.clients sid with
  | none => (s, [])
  | some info => (s, [(.toRoom info.room, .typing info.username)])

/-- Handler of `stopTyping`. -/
def handleStopTyping (s : ServerState) (sid : Nat) : ServerState × List Emit :=
  match mapGet s.clients sid with
  | none => (s, [])
  | some info => (s, [(.toRoom info.room, .stopTyping)])

/-- Handler of `privateMessage { to, message }`. -/
def handlePrivate (s : ServerState) (sid : Nat) (toName msgBody : String)
    (now : Nat) : ServerState × List Emit :=
  match mapGet s.clients sid with
  | none => (s, [(.toSocket sid, .system "Join a room first")])
  | some info =>
    match mapGet s.rooms info.room with
    | none => (s, [(.toSocket sid, .system "Room not found")])
    | some r =>
      match r.users.find? (fun p => p.2 == toName) with
      | none => (s, [(.toSocket sid, .system ("User not found in room: " ++ toName))])
      | some p =>
        (s, [(.toSocket p.1, .privateMessage info.username msgBody now),
             (.toSocket sid, .system ("Private message sent to " ++ toName))])

/-- Handler of the transport-level `disconnect`. -/
def handleDisconnect (s : ServerState) (sid : Nat) : ServerState × List Emit :=
  match mapGet s.clients sid with
  | none => (s, [])
  | some info =>
    match mapGet s.rooms info.room with
    | some r =>
      let r₁ : Room := { r with users := mapDelete r.users sid }
      (⟨mapSet s.rooms info.room r₁, mapDelete s.clients sid⟩,
        [(.toRoomExcept info.room sid, .system (info.username ++ " disconnected")),
         (.toRoom info.room, .users (r₁.users.map Prod.snd))])
    | none => (⟨s.rooms, mapDelete s.clients sid⟩, [])

/-- Dispatch one inbound event to its handler. -/
def step (s : ServerState) : Event → ServerState × List Emit
  | .joinRoom sid u rm => handleJoin s sid u rm
  | .leaveRoom sid => handleLeave s sid
  | .chatMessage sid text now => handleChat s sid text now
  | .typing sid => handleTyping s sid
  | .stopTyping sid => handleStopTyping s sid
  | .privateMessage sid toName msgBody now => handlePrivate s sid toName msgBody now
  | .disconnect sid => handleDisconnect s sid

/-- The state at server start: no rooms, no clients. -/
def initState : ServerState := ⟨[], []⟩

/-- Run a sequence of events from a given state. -/
def runFrom (s : ServerState) : List Event → ServerState
  | [] => s
  | e :: tr => runFrom (step s e).1 tr

/-- Run a sequence of events from the initial server state. -/
def run (tr : List Event) : ServerState := runFrom initState tr

/-- The roster of a room as stored in the Room Store ( `[]` if the room record
does not exist). -/
def roomUsers (s : ServerState) (n : String) : List (Nat × String) :=
  match mapGet s.rooms n with
  | some r => r.users
  | none => []

/-- The message history of a room ( `[]` if the room record does not exist). -/
def historyOf (s : ServerState) (n : String) : List Message :=
  match mapGet s.rooms n with
  | some r => r.history
  | none => []

/-- The connections of a clients list whose session's `room` field equals
`n`, with their display names, in registry order. -/
def regL (cl : List (Nat × Session)) (n : String) : List (Nat × String) :=
  cl.filterMap (fun p => if p.2.room = n then some (p.1, p.2.username) else none)

/-- The Registry view of a room: the connections whose session's `room` field
equals `n`, with their display names, in registry order. -/
def regList (s : ServerState) (n : String) : List (Nat × String) :=
  regL s.clients n

/-- A `joinRoom` event is a rejoin-in-place when the connection either has no
session yet or is already joined to the (normalized) room it names; a join
that switches rooms is the one case the source does not clean up after. -/
def okJoin (s : ServerState) : Event → Bool
  | .joinRoom sid _ rm =>
    match mapGet s.clients sid with
    | none => true
    | some sess => sess.room == normRoom rm
  | _ => true

/-- A trace is clean (starting from `s`) when no event joins a connection to a
new room while it is still joined to a different one. -/
def cleanFrom (s : ServerState) : List Event → Bool
  | [] => true
  | e :: tr => okJoin s e && cleanFrom (step s e).1 tr

/-- Cleanliness from the initial state. -/
def clean (tr : List Event) : Bool := cleanFrom initState tr

/-- The messages appended by the events of a trace, tagged with the room they
were appended to (a `chatMessage` from a joined connection appends exactly
one message to the sender's current room; every other event appends none). -/
def msgStep (s : ServerState) : Event → List (String × Message)
  | .chatMessage sid text now =>
    match mapGet s.clients sid with
    | none => []
    | some info => [(info.room, ⟨info.username, jsSubstring text 1000, now⟩)]
  | _ => []

/-- Accumulate the tagged appended messages over a trace run from `s`. -/
def msgLogFrom (s : ServerState) : List Event → List (String × Message)
  | [] => []
  | e :: tr => msgStep s e ++ msgLogFrom (step s e).1 tr

/-- All messages ever appended to room `n` by a trace run from the initial
state, in append order. -/
def appendedTo (tr : List Event) (n : String) : List Message :=
  (msgLogFrom initState tr).filterMap (fun p => if p.1 = n then some p.2 else none)

/-- Key-uniqueness of an association list, an invariant of every JS `Map`. -/
def keysND (m : List (κ × α)) : Prop := (m.map Prod.fst).Nodup

/-! ### Association-list lemmas -/

theorem mapGet_mapSet [DecidableEq κ] (m : List (κ × α)) (k k₁ : κ) (v : α) :
    mapGet (mapSet m k v) k₁ = if k = k₁ then some v else mapGet m k₁ := by
  induction m with
  | nil => simp [mapGet, mapSet]
  | cons p rest ih =>
    obtain ⟨k₀, v₀⟩ := p
    by_cases h : k₀ = k
    · subst h
      by_cases h₁ : k₀ = k₁ <;> simp [mapGet, mapSet, h₁]
    · simp only [mapSet, if_neg h, mapGet]
      by_cases h₁ : k₀ = k₁
      · subst h₁
        simp [Ne.symm h, mapGet]
      · simp [h₁, ih]

theorem mapSet_of_get_none [DecidableEq κ] (m : List (κ × α)) (k : κ) (v : α)
    (h : mapGet m k = none) : mapSet m k v = m ++ [(k, v)] := by
  induction m with
  | nil => simp [mapSet]
  | cons p rest ih =>
    obtain ⟨k₀, v₀⟩ := p
    simp only [mapGet] at h
    by_cases h₀ : k₀ = k
    · simp [h₀] at h
    · simp only [mapSet, if_neg h₀, List.cons_append, List.cons.injEq, true_and]
      exact ih (by simpa [h₀] using h)

theorem mapGet_eq_none_of_not_mem_keys [DecidableEq κ] (m : List (κ × α)) (k : κ)
    (h : k ∉ m.map Prod.fst) : mapGet m k = none := by
  induction m with
  | nil => rfl
  | cons p rest ih =>
    obtain ⟨k₀, v₀⟩ := p
    simp only [List.map_cons, List.mem_cons] at h
    push_neg at h
    simp [mapGet, Ne.symm h.1, ih h.2]

theorem not_mem_keys_of_mapGet_none [DecidableEq κ] (m : List (κ × α)) (k : κ)
    (h : mapGet m k = none) : k ∉ m.map Prod.fst := by
  induction m with
  | nil => simp
  | cons p rest ih =>
    obtain ⟨k₀, v₀⟩ := p
    simp only [mapGet] at h
    by_cases h₀ : k₀ = k
    · simp [h₀] at h
    · simp only [List.map_cons, List.mem_cons]
      push_neg
      exact ⟨Ne.symm h₀, ih (by simpa [h₀] using h)⟩

theorem mapDelete_of_not_mem_keys [DecidableEq κ] (m : List (κ × α)) (k : κ)
    (h : k ∉ m.map Prod.fst) : mapDelete m k = m := by
  induction m with
  | nil => rfl
  | cons p rest ih =>
    obtain ⟨k₀, v₀⟩ := p
    simp only [List.map_cons, List.mem_cons] at h
    push_neg at h
    simp [mapDelete, Ne.symm h.1, ih h.2]

theorem keys_mapSet [DecidableEq κ] (m : List (κ × α)) (k : κ) (v : α) :
    (mapSet m k v).map Prod.fst = if k ∈ m.map Prod.fst then m.map Prod.fst
      else m.map Prod.fst ++ [k] := by
  induction m with
  | nil => simp [mapSet]
  | cons p rest ih =>
    obtain ⟨k₀, v₀⟩ := p
    by_cases h : k₀ = k
    · subst h
      simp [mapSet]
    · simp only [mapSet, if_neg h, List.map_cons, ih, List.mem_cons]
      by_cases hm : k ∈ rest.map Prod.fst
      · simp [hm, Ne.symm h]
      · simp [hm, Ne.symm h]

theorem keysND_mapSet [DecidableEq κ] (m : List (κ × α)) (k : κ) (v : α)
    (h : keysND m) : keysND (mapSet m k v) := by
  unfold keysND at h ⊢
  rw [keys_mapSet]
  by_cases hm : k ∈ m.map Prod.fst
  · simpa [hm] using h
  · simp only [hm, if_false]
    simpa [List.nodup_append, hm] using h

theorem keys_mapDelete_sublist [DecidableEq κ] (m : List (κ × α)) (k : κ) :
    ((mapDelete m k).map Prod.fst).Sublist (m.map Prod.fst) := by
  induction m with
  | nil => simp [mapDelete]
  | cons p rest ih =>
    obtain ⟨k₀, v₀⟩ := p
    by_cases h : k₀ = k
    · simp only [mapDelete, if_pos h, List.map_cons]
      exact (List.sublist_cons_self _ _)
    · simp only [mapDelete, if_neg h, List.map_cons]
      exact ih.cons₂ k₀

theorem keysND_mapDelete [DecidableEq κ] (m : List (κ × α)) (k : κ)
    (h : keysND m) : keysND (mapDelete m k) :=
  (keys_mapDelete_sublist m k).nodup h

theorem mapGet_mapDelete [DecidableEq κ] (m : List (κ × α)) (k k₁ : κ)
    (hnd : keysND m) :
    mapGet (mapDelete m k) k₁ = if k = k₁ then none else mapGet m k₁ := by
  induction m with
  | nil => simp [mapGet, mapDelete]
  | cons p rest ih =>
    obtain ⟨k₀, v₀⟩ := p
    rw [keysND, List.map_cons, List.nodup_cons] at hnd
    have hnd₀ : k₀ ∉ rest.map Prod.fst := hnd.1
    have hndr : keysND rest := hnd.2
    by_cases h : k₀ = k
    · subst h
      simp only [mapDelete, if_pos rfl]
      by_cases h₁ : k₀ = k₁
      · subst h₁
        simp [mapGet_eq_none_of_not_mem_keys rest k₀ hnd₀]
      · simp [mapGet, h₁]
    · simp only [mapDelete, if_neg h, mapGet]
      by_cases h₁ : k₀ = k₁
      · subst h₁
        simp [Ne.symm h]
      · simp [h₁, ih hndr]

/-! ### Registry-projection lemmas -/

theorem regL_cons (sid : Nat) (sess : Session) (cl : List (Nat × Session)) (n : String) :
    regL ((sid, sess) :: cl) n =
      if sess.room = n then (sid, sess.username) :: regL cl n else regL cl n := by
  by_cases h : sess.room = n <;> simp [regL, h]

theorem regL_append_one (cl : List (Nat × Session)) (sid : Nat) (sess : Session)
    (n : String) :
    regL (cl ++ [(sid, sess)]) n =
      regL cl n ++ if sess.room = n then [(sid, sess.username)] else [] := by
  by_cases h : sess.room = n <;> simp [regL, h]

theorem keys_regL_sublist (cl : List (Nat × Session)) (n : String) :
    ((regL cl n).map Prod.fst).Sublist (cl.map Prod.fst) := by
  induction cl with
  | nil => simp [regL]
  | cons p rest ih =>
    obtain ⟨sid, sess⟩ := p
    rw [regL_cons]
    by_cases h : sess.room = n
    · simpa [h] using ih.cons₂ sid
    · simpa [h] using ih.cons sid

theorem keysND_regL (cl : List (Nat × Session)) (n : String) (h : keysND cl) :
    keysND (regL cl n) :=
  (keys_regL_sublist cl n).nodup h

theorem mapGet_regL_none (cl : List (Nat × Session)) (sid : Nat) (n : String)
    (h : mapGet cl sid = none) : mapGet (regL cl n) sid = none := by
  apply mapGet_eq_none_of_not_mem_keys
  intro hmem
  exact not_mem_keys_of_mapGet_none cl sid h ((keys_regL_sublist cl n).mem hmem)

theorem regL_mapSet_same (cl : List (Nat × Session)) (sid : Nat) (u rm n : String)
    (sess : Session) (hget : mapGet cl sid = some sess) (hroom : sess.room = rm) :
    regL (mapSet cl sid ⟨u, rm⟩) n =
      if rm = n then mapSet (regL cl n) sid u else regL cl n := by
  induction cl with
  | nil => simp [mapGet] at hget
  | cons p rest ih =>
    obtain ⟨k₀, s₀⟩ := p
    simp only [mapGet] at hget
    by_cases h : k₀ = sid
    · subst h
      have hsess : s₀ = sess := by simpa using hget
      subst hsess
      by_cases hn : rm = n
      · subst hn
        simp [mapSet, regL_cons, hroom]
      · simp [mapSet, regL_cons, hn, hroom]
    · simp only [if_neg h] at hget
      simp only [mapSet, if_neg h, regL_cons, ih hget]
      by_cases hn : rm = n
      · simp only [if_pos hn]
        by_cases hs : s₀.room = n
        · simp [hs, mapSet, h]
        · simp [hs]
      · simp [hn]

theorem regL_mapDelete (cl : List (Nat × Session)) (sid : Nat) (n : String)
    (hnd : keysND cl) : regL (mapDelete cl sid) n = mapDelete (regL cl n) sid := by
  induction cl with
  | nil => simp [regL, mapDelete]
  | cons p rest ih =>
    obtain ⟨k₀, s₀⟩ := p
    rw [keysND, List.map_cons, List.nodup_cons] at hnd
    by_cases h : k₀ = sid
    · subst h
      simp only [mapDelete, if_pos rfl, regL_cons, if_true]
      by_cases hs : s₀.room = n
      · simp [hs, mapDelete]
      · simp only [if_neg hs, if_pos rfl]
        rw [mapDelete_of_not_mem_keys]
        intro hmem
        exact hnd.1 ((keys_regL_sublist rest n).mem hmem)
    · simp only [mapDelete, if_neg h, regL_cons, ih hnd.2]
      by_cases hs : s₀.room = n
      · simp [hs, mapDelete, h]
      · simp [hs]

/-! ### Handler characterizations -/

theorem clients_handleJoin (s : ServerState) (sid : Nat) (u rm : Option String) :
    (handleJoin s sid u rm).1.clients =
      mapSet s.clients sid ⟨normUsername u, normRoom rm⟩ := rfl

theorem roomUsers_handleJoin (s : ServerState) (sid : Nat) (u rm : Option String)
    (n : String) :
    roomUsers (handleJoin s sid u rm).1 n =
      if normRoom rm = n then mapSet (roomUsers s (normRoom rm)) sid (normUsername u)
      else roomUsers s n := by
  by_cases hn : normRoom rm = n
  · subst hn
    cases h : mapGet s.rooms (normRoom rm) <;>
      simp [handleJoin, ensureRoom, roomUsers, h, mapGet_mapSet]
  · cases h : mapGet s.rooms (normRoom rm) <;>
      simp [handleJoin, ensureRoom, roomUsers, h, mapGet_mapSet, hn]

theorem historyOf_handleJoin (s : ServerState) (sid : Nat) (u rm : Option String)
    (n : String) :
    historyOf (handleJoin s sid u rm).1 n = historyOf s n := by
  by_cases hn : normRoom rm = n
  · subst hn
    cases h : mapGet s.rooms (normRoom rm) <;>
      simp [handleJoin, ensureRoom, historyOf, h, mapGet_mapSet]
  · cases h : mapGet s.rooms (normRoom rm) <;>
      simp [handleJoin, ensureRoom, historyOf, h, mapGet_mapSet, hn]

theorem emits_handleJoin (s : ServerState) (sid : Nat) (u rm : Option String) :
    (handleJoin s sid u rm).2 =
      [(.toRoomExcept (normRoom rm) sid, .system (normUsername u ++ " has joined the room")),
       (.toRoom (normRoom rm),
         .users ((mapSet (roomUsers s (normRoom rm)) sid (normUsername u)).map Prod.snd)),
       (.toSocket sid, .joined (normRoom rm) (normUsername u)
         ((mapSet (roomUsers s (normRoom rm)) sid (normUsername u)).map Prod.snd)
         (takeLast 50 (historyOf s (normRoom rm))))] := by
  cases h : mapGet s.rooms (normRoom rm) <;>
    simp [handleJoin, ensureRoom, roomUsers, historyOf, h, takeLast]

theorem handleLeave_none (s : ServerState) (sid : Nat)
    (h : mapGet s.clients sid = none) : handleLeave s sid = (s, []) := by
  simp [handleLeave, h]

theorem handleLeave_some (s : ServerState) (sid : Nat) (info : Session)
    (r : Room) (h : mapGet s.clients sid = some info)
    (hr : mapGet s.rooms info.room = some r) :
    handleLeave s sid =
      (⟨mapSet s.rooms info.room { r with users := mapDelete r.users sid },
        mapDelete s.clients sid⟩,
       [(.toSocket sid, .left info.room info.username),
        (.toRoomExcept info.room sid, .system (info.username ++ " has left the room")),
        (.toRoom info.room, .users ((mapDelete r.users sid).map Prod.snd))]) := by
  simp [handleLeave, h, hr]

theorem handleLeave_some_noroom (s : ServerState) (sid : Nat) (info : Session)
    (h : mapGet s.clients sid = some info)
    (hr : mapGet s.rooms info.room = none) :
    handleLeave s sid = (⟨s.rooms, mapDelete s.clients sid⟩, []) := by
  simp [handleLeave, h, hr]

theorem handleChat_none (s : ServerState) (sid : Nat) (text : String) (now : Nat)
    (h : mapGet s.clients sid = none) :
    handleChat s sid text now =
      (s, [(.toSocket sid, .system "Please join a room first")]) := by
  simp [handleChat, h]

theorem clients_handleChat_some (s : ServerState) (sid : Nat) (text : String)
    (now : Nat) (info : Session) (h : mapGet s.clients sid = some info) :
    (handleChat s sid text now).1.clients = s.clients := by
  cases hr : mapGet s.rooms info.room <;> simp [handleChat, ensureRoom, h, hr]

theorem emits_handleChat_some (s : ServerState) (sid : Nat) (text : String)
    (now : Nat) (info : Session) (h : mapGet s.clients sid = some info) :
    (handleChat s sid text now).2 =
      [(.toRoom info.room, .message ⟨info.username, jsSubstring text 1000, now⟩)] := by
  cases hr : mapGet s.rooms info.room <;> simp [handleChat, ensureRoom, h, hr]

theorem roomUsers_handleChat_some (s : ServerState) (sid : Nat) (text : String)
    (now : Nat) (info : Session) (n : String)
    (h : mapGet s.clients sid = some info) :
    roomUsers (handleChat s sid text now).1 n = roomUsers s n := by
  by_cases hn : info.room = n
  · subst hn
    cases hr : mapGet s.rooms info.room <;>
      simp [handleChat, ensureRoom, roomUsers, h, hr, mapGet_mapSet]
  · cases hr : mapGet s.rooms info.room <;>
      simp [handleChat, ensureRoom, roomUsers, h, hr, mapGet_mapSet, hn]

theorem historyOf_handleChat_some (s : ServerState) (sid : Nat) (text : String)
    (now : Nat) (info : Session) (n : String)
    (h : mapGet s.clients sid = some info) :
    historyOf (handleChat s sid text now).1 n =
      if info.room = n then
        appendHistory (historyOf s info.room) ⟨info.username, jsSubstring text 1000, now⟩
      else historyOf s n := by
  by_cases hn : info.room = n
  · subst hn
    cases hr : mapGet s.rooms info.room <;>
      simp [handleChat, ensureRoom, historyOf, h, hr, mapGet_mapSet]
  · cases hr : mapGet s.rooms info.room <;>
      simp [handleChat, ensureRoom, historyOf, h, hr, mapGet_mapSet, hn]

theorem handleTyping_fst (s : ServerState) (sid : Nat) :
    (handleTyping s sid).1 = s := by
  cases h : mapGet s.clients sid <;> simp [handleTyping, h]

theorem handleStopTyping_fst (s : ServerState) (sid : Nat) :
    (handleStopTyping s sid).1 = s := by
  cases h : mapGet s.clients sid <;> simp [handleStopTyping, h]

theorem handlePrivate_fst (s : ServerState) (sid : Nat) (toName msgBody : String)
    (now : Nat) : (handlePrivate s sid toName msgBody now).1 = s := by
  cases h : mapGet s.clients sid with
  | none => simp [handlePrivate, h]
  | some info =>
    cases hr : mapGet s.rooms info.room with
    | none => simp [handlePrivate, h, hr]
    | some r =>
      cases hf : r.users.find? (fun p => p.2 == toName) <;>
        simp [handlePrivate, h, hr, hf]

theorem handleDisconnect_none (s : ServerState) (sid : Nat)
    (h : mapGet s.clients sid = none) : handleDisconnect s sid = (s, []) := by
  simp [handleDisconnect, h]

theorem handleDisconnect_some (s : ServerState) (sid : Nat) (info : Session)
    (r : Room) (h : mapGet s.clients sid = some info)
    (hr : mapGet s.rooms info.room = some r) :
    handleDisconnect s sid =
      (⟨mapSet s.rooms info.room { r with users := mapDelete r.users sid },
        mapDelete s.clients sid⟩,
       [(.toRoomExcept info.room sid, .system (info.username ++ " disconnected")),
        (.toRoom info.room, .users ((mapDelete r.users sid).map Prod.snd))]) := by
  simp [handleDisconnect, h, hr]

theorem handleDisconnect_some_noroom (s : ServerState) (sid : Nat) (info : Session)
    (h : mapGet s.clients sid = some info)
    (hr : mapGet s.rooms info.room = none) :
    handleDisconnect s sid = (⟨s.rooms, mapDelete s.clients sid⟩, []) := by
  simp [handleDisconnect, h, hr]

/-! ### The roster/registry invariant -/

/-- The roster of every room agrees, entry for entry, with the Registry view
of that room (and the clients map has unique keys, as every JS `Map` does). -/
def Inv (s : ServerState) : Prop :=
  keysND s.clients ∧ ∀ n, roomUsers s n = regList s n

theorem inv_initState : Inv initState := by
  constructor
  · simp [initState, keysND]
  · intro n
    simp [initState, roomUsers, regList, regL, mapGet]

theorem mem_regL_of_mapGet (cl : List (Nat × Session)) (sid : Nat) (info : Session)
    (h : mapGet cl sid = some info) : (sid, info.username) ∈ regL cl info.room := by
  induction cl with
  | nil => simp [mapGet] at h
  | cons p rest ih =>
    obtain ⟨k₀, s₀⟩ := p
    simp only [mapGet] at h
    by_cases hk : k₀ = sid
    · subst hk
      have hs : s₀ = info := by simpa using h
      subst hs
      simp [regL_cons]
    · rw [regL_cons]
      have hmem := ih (by simpa [hk] using h)
      by_cases hs : s₀.room = info.room
      · simp [hs, hmem]
      · simp [hs, hmem]

theorem mapGet_regL_of_room_ne (cl : List (Nat × Session)) (sid : Nat)
    (info : Session) (n : String) (hnd : keysND cl)
    (h : mapGet cl sid = some info) (hne : info.room ≠ n) :
    mapGet (regL cl n) sid = none := by
  induction cl with
  | nil => simp [mapGet] at h
  | cons p rest ih =>
    obtain ⟨k₀, s₀⟩ := p
    rw [keysND, List.map_cons, List.nodup_cons] at hnd
    simp only [mapGet] at h
    by_cases hk : k₀ = sid
    · subst hk
      have hs : s₀ = info := by simpa using h
      subst hs
      rw [regL_cons, if_neg hne]
      exact mapGet_regL_none rest k₀ n (mapGet_eq_none_of_not_mem_keys rest k₀ hnd.1)
    · have hrec := ih hnd.2 (by simpa [hk] using h)
      rw [regL_cons]
      by_cases hs : s₀.room = n
      · simp [hs, mapGet, hk, hrec]
      · simp [hs, hrec]

theorem regList_mk (rooms : List (String × Room)) (cl : List (Nat × Session))
    (n : String) : regList ⟨rooms, cl⟩ n = regL cl n := rfl

theorem roomUsers_mk_mapSet (rooms : List (String × Room)) (cl : List (Nat × Session))
    (m : String) (r : Room) (n : String) :
    roomUsers ⟨mapSet rooms m r, cl⟩ n =
      if m = n then r.users else roomUsers ⟨rooms, cl⟩ n := by
  simp only [roomUsers, mapGet_mapSet]
  by_cases h : m = n <;> simp [h]

theorem historyOf_mk_mapSet (rooms : List (String × Room)) (cl : List (Nat × Session))
    (m : String) (r : Room) (n : String) :
    historyOf ⟨mapSet rooms m r, cl⟩ n =
      if m = n then r.history else historyOf ⟨rooms, cl⟩ n := by
  simp only [historyOf, mapGet_mapSet]
  by_cases h : m = n <;> simp [h]

theorem roomUsers_clients_irrel (rooms : List (String × Room))
    (cl cl₁ : List (Nat × Session)) (n : String) :
    roomUsers ⟨rooms, cl⟩ n = roomUsers ⟨rooms, cl₁⟩ n := rfl

theorem inv_step (s : ServerState) (e : Event) (hInv : Inv s)
    (hok : okJoin s e = true) : Inv (step s e).1 := by
  obtain ⟨hnd, hreg⟩ := hInv
  cases e with
  | joinRoom sid u rm =>
    refine ⟨?_, ?_⟩
    · rw [step, clients_handleJoin]
      exact keysND_mapSet s.clients sid _ hnd
    · intro n
      rw [step, regList, clients_handleJoin, roomUsers_handleJoin]
      cases hc : mapGet s.clients sid with
      | none =>
        rw [mapSet_of_get_none s.clients sid _ hc, regL_append_one]
        by_cases hn : normRoom rm = n
        · subst hn
          rw [if_pos rfl, if_pos rfl, hreg, regList,
            mapSet_of_get_none _ sid _ (mapGet_regL_none s.clients sid _ hc)]
        · rw [if_neg hn, if_neg (by simpa using hn), hreg, regList, List.append_nil]
      | some sess =>
        have hroom : sess.room = normRoom rm := by
          have := hok
          simp only [okJoin, hc] at this
          exact eq_of_beq this
        rw [regL_mapSet_same s.clients sid _ _ n sess hc hroom]
        by_cases hn : normRoom rm = n
        · subst hn
          rw [if_pos rfl, if_pos rfl, hreg, regList]
        · rw [if_neg hn, if_neg hn, hreg, regList]
  | leaveRoom sid =>
    cases hc : mapGet s.clients sid with
    | none =>
      rw [step, handleLeave_none s sid hc]
      exact ⟨hnd, hreg⟩
    | some info =>
      cases hr : mapGet s.rooms info.room with
      | none =>
        exfalso
        have h₁ : roomUsers s info.room = [] := by simp [roomUsers, hr]
        have h₂ := mem_regL_of_mapGet s.clients sid info hc
        rw [← regList, ← hreg, h₁] at h₂
        exact (List.not_mem_nil _) h₂
      | some r =>
        rw [step, handleLeave_some s sid info r hc hr]
        refine ⟨keysND_mapDelete s.clients sid hnd, ?_⟩
        intro n
        rw [regList_mk, regL_mapDelete s.clients sid n hnd, roomUsers_mk_mapSet]
        by_cases hn : info.room = n
        · subst hn
          rw [if_pos rfl]
          have h₀ : r.users = regL s.clients info.room := by
            have h₁ := hreg info.room
            rw [regList] at h₁
            simp only [roomUsers, hr] at h₁
            exact h₁
          show mapDelete r.users sid = mapDelete (regL s.clients info.room) sid
          rw [h₀]
        · rw [if_neg hn]
          have hnone : mapGet (regL s.clients n) sid = none :=
            mapGet_regL_of_room_ne s.clients sid info n hnd hc hn
          rw [mapDelete_of_not_mem_keys _ sid (not_mem_keys_of_mapGet_none _ sid hnone)]
          have h₀ := hreg n
          rw [regList] at h₀
          exact h₀
  | chatMessage sid text now =>
    cases hc : mapGet s.clients sid with
    | none =>
      rw [step, handleChat_none s sid text now hc]
      exact ⟨hnd, hreg⟩
    | some info =>
      refine ⟨?_, ?_⟩
      · rw [step, clients_handleChat_some s sid text now info hc]
        exact hnd
      · intro n
        rw [step, regList, clients_handleChat_some s sid text now info hc,
          roomUsers_handleChat_some s sid text now info n hc, hreg, regList]
  | typing sid =>
    rw [step, handleTyping_fst]
    exact ⟨hnd, hreg⟩
  | stopTyping sid =>
    rw [step, handleStopTyping_fst]
    exact ⟨hnd, hreg⟩
  | privateMessage sid toName msgBody now =>
    rw [step, handlePrivate_fst]
    exact ⟨hnd, hreg⟩
  | disconnect sid =>
    cases hc : mapGet s.clients sid with
    | none =>
      rw [step, handleDisconnect_none s sid hc]
      exact ⟨hnd, hreg⟩
    | some info =>
      cases hr : mapGet s.rooms info.room with
      | none =>
        exfalso
        have h₁ : roomUsers s info.room = [] := by simp [roomUsers, hr]
        have h₂ := mem_regL_of_mapGet s.clients sid info hc
        rw [← regList, ← hreg, h₁] at h₂
        exact (List.not_mem_nil _) h₂
      | some r =>
        rw [step, handleDisconnect_some s sid info r hc hr]
        refine ⟨keysND_mapDelete s.clients sid hnd, ?_⟩
        intro n
        rw [regList_mk, regL_mapDelete s.clients sid n hnd, roomUsers_mk_mapSet]
        by_cases hn : info.room = n
        · subst hn
          rw [if_pos rfl]
          have h₀ : r.users = regL s.clients info.room := by
            have h₁ := hreg info.room
            rw [regList] at h₁
            simp only [roomUsers, hr] at h₁
            exact h₁
          show mapDelete r.users sid = mapDelete (regL s.clients info.room) sid
          rw [h₀]
        · rw [if_neg hn]
          have hnone : mapGet (regL s.clients n) sid = none :=
            mapGet_regL_of_room_ne s.clients sid info n hnd hc hn
          rw [mapDelete_of_not_mem_keys _ sid (not_mem_keys_of_mapGet_none _ sid hnone)]
          have h₀ := hreg n
          rw [regList] at h₀
          exact h₀

theorem inv_runFrom (tr : List Event) : ∀ s : ServerState, Inv s →
    cleanFrom s tr = true → Inv (runFrom s tr) := by
  induction tr with
  | nil =>
    intro s hInv _
    exact hInv
  | cons e rest ih =>
    intro s hInv hclean
    simp only [cleanFrom, Bool.and_eq_true] at hclean
    exact ih (step s e).1 (inv_step s e hInv hclean.1) hclean.2

theorem cleanFrom_append (pre : List Event) : ∀ s : ServerState, ∀ e post,
    cleanFrom s (pre ++ e :: post) = true →
    cleanFrom s pre = true ∧ okJoin (runFrom s pre) e = true := by
  induction pre with
  | nil =>
    intro s e post h
    simp only [List.nil_append, cleanFrom, Bool.and_eq_true] at h
    exact ⟨rfl, h.1⟩
  | cons e₀ rest ih =>
    intro s e post h
    simp only [List.cons_append, cleanFrom, Bool.and_eq_true] at h
    have := ih (step s e₀).1 e post h.2
    simp only [cleanFrom, Bool.and_eq_true, runFrom]
    exact ⟨⟨h.1, this.1⟩, this.2⟩

theorem users_emit_step (s : ServerState) (e : Event) (hInv : Inv s)
    (hok : okJoin s e = true) :
    ∀ n l, (Target.toRoom n, Out.users l) ∈ (step s e).2 →
      l = (regList (step s e).1 n).map Prod.snd := by
  have hInv₁ := inv_step s e hInv hok
  intro n l hmem
  rw [← hInv₁.2 n]
  cases e with
  | joinRoom sid u rm =>
    rw [step, emits_handleJoin] at hmem
    simp only [List.mem_cons, List.not_mem_nil, or_false, Prod.mk.injEq] at hmem
    rcases hmem with ⟨h₁, h₂⟩ | ⟨h₁, h₂⟩ | ⟨h₁, h₂⟩
    · cases h₁
    · injection h₁ with hn
      injection h₂ with hl
      subst hn
      subst hl
      rw [step, roomUsers_handleJoin, if_pos rfl]
    · cases h₁
  | leaveRoom sid =>
    cases hc : mapGet s.clients sid with
    | none =>
      rw [step, handleLeave_none s sid hc] at hmem
      simp at hmem
    | some info =>
      cases hr : mapGet s.rooms info.room with
      | none =>
        rw [step, handleLeave_some_noroom s sid info hc hr] at hmem
        simp at hmem
      | some r =>
        rw [step, handleLeave_some s sid info r hc hr] at hmem
        simp only [List.mem_cons, List.not_mem_nil, or_false, Prod.mk.injEq] at hmem
        rcases hmem with ⟨h₁, h₂⟩ | ⟨h₁, h₂⟩ | ⟨h₁, h₂⟩
        · cases h₁
        · cases h₁
        · injection h₁ with hn
          injection h₂ with hl
          subst hn
          subst hl
          rw [step, handleLeave_some s sid info r hc hr]
          simp [roomUsers_mk_mapSet]
  | chatMessage sid text now =>
    cases hc : mapGet s.clients sid with
    | none =>
      rw [step, handleChat_none s sid text now hc] at hmem
      simp at hmem
    | some info =>
      rw [step, emits_handleChat_some s sid text now info hc] at hmem
      simp at hmem
  | typing sid =>
    cases hc : mapGet s.clients sid with
    | none =>
      rw [step] at hmem
      simp [handleTyping, hc] at hmem
    | some info =>
      rw [step] at hmem
      simp [handleTyping, hc] at hmem
  | stopTyping sid =>
    cases hc : mapGet s.clients sid with
    | none =>
      rw [step] at hmem
      simp [handleStopTyping, hc] at hmem
    | some info =>
      rw [step] at hmem
      simp [handleStopTyping, hc] at hmem
  | privateMessage sid toName msgBody now =>
    cases hc : mapGet s.clients sid with
    | none =>
      rw [step] at hmem
      simp [handlePrivate, hc] at hmem
    | some info =>
      cases hr : mapGet s.rooms info.room with
      | none =>
        rw [step] at hmem
        simp [handlePrivate, hc, hr] at hmem
      | some r =>
        cases hf : r.users.find? (fun p => p.2 == toName) with
        | none =>
          rw [step] at hmem
          simp [handlePrivate, hc, hr, hf] at hmem
        | some p =>
          rw [step] at hmem
          simp [handlePrivate, hc, hr, hf] at hmem
  | disconnect sid =>
    cases hc : mapGet s.clients sid with
    | none =>
      rw [step, handleDisconnect_none s sid hc] at hmem
      simp at hmem
    | some info =>
      cases hr : mapGet s.rooms info.room with
      | none =>
        rw [step, handleDisconnect_some_noroom s sid info hc hr] at hmem
        simp at hmem
      | some r =>
        rw [step, handleDisconnect_some s sid info r hc hr] at hmem
        simp only [List.mem_cons, List.not_mem_nil, or_false, Prod.mk.injEq] at hmem
        rcases hmem with ⟨h₁, h₂⟩ | ⟨h₁, h₂⟩
        · cases h₁
        · injection h₁ with hn
          injection h₂ with hl
          subst hn
          subst hl
          rw [step, handleDisconnect_some s sid info r hc hr]
          simp [roomUsers_mk_mapSet]

/-! ### History retention lemmas -/

theorem length_takeLast (n : Nat) (l : List α) :
    (takeLast n l).length = min n l.length := by
  simp only [takeLast, List.length_drop]
  omega

theorem takeLast_of_le (n : Nat) (l : List α) (h : l.length ≤ n) :
    takeLast n l = l := by
  simp [takeLast, Nat.sub_eq_zero_of_le h]

theorem takeLast_suffix (n : Nat) (l : List α) : (takeLast n l).IsSuffix l :=
  List.drop_suffix _ _

theorem takeLast_appendHistory (l : List Message) (m : Message) :
    takeLast 200 (l ++ [m]) = appendHistory (takeLast 200 l) m := by
  by_cases h : l.length < 200
  · rw [takeLast_of_le 200 l (Nat.le_of_lt h),
      takeLast_of_le 200 (l ++ [m])
        (by simp only [List.length_append, List.length_cons, List.length_nil]; omega)]
    unfold appendHistory
    rw [if_neg (by simp only [List.length_append, List.length_cons, List.length_nil]; omega)]
  · push_neg at h
    have ht : (takeLast 200 l).length = 200 := by
      rw [length_takeLast]
      omega
    unfold appendHistory
    rw [if_pos (by
      simp only [List.length_append, List.length_cons, List.length_nil, ht]
      omega)]
    rw [← List.drop_one, List.drop_append_of_le_length (by omega)]
    unfold takeLast
    rw [List.drop_drop, List.drop_append_of_le_length (by
      simp only [List.length_append, List.length_cons, List.length_nil]
      omega)]
    have hidx : (l ++ [m]).length - 200 = (l.length - 200) + 1 := by
      simp only [List.length_append, List.length_cons, List.length_nil]
      omega
    rw [hidx]

theorem appendHistory_at_cap (h : List Message) (m : Message)
    (hlen : h.length = 200) : appendHistory h m = h.tail ++ [m] := by
  unfold appendHistory
  rw [if_pos (by
    simp only [List.length_append, List.length_cons, List.length_nil, hlen]
    omega)]
  rw [← List.drop_one, List.drop_append_of_le_length (by omega), List.drop_one]

theorem getLast?_appendHistory (h : List Message) (m : Message) :
    (appendHistory h m).getLast? = some m := by
  unfold appendHistory
  by_cases hc : 200 < (h ++ [m]).length
  · rw [if_pos hc, ← List.drop_one, List.drop_append_of_le_length (by
      simp only [List.length_append, List.length_cons, List.length_nil] at hc
      omega)]
    exact List.getLast?_concat _
  · rw [if_neg hc]
    exact List.getLast?_concat _

theorem length_appendHistory_le (h : List Message) (m : Message)
    (hlen : h.length ≤ 200) : (appendHistory h m).length ≤ 200 := by
  unfold appendHistory
  by_cases hc : 200 < (h ++ [m]).length
  · rw [if_pos hc]
    simp only [List.length_tail, List.length_append, List.length_cons, List.length_nil]
    omega
  · rw [if_neg hc]
    simp only [List.length_append] at hc ⊢
    omega

theorem historyOf_handleLeave (s : ServerState) (sid : Nat) (n : String) :
    historyOf (handleLeave s sid).1 n = historyOf s n := by
  cases hc : mapGet s.clients sid with
  | none => rw [handleLeave_none s sid hc]
  | some info =>
    cases hr : mapGet s.rooms info.room with
    | none =>
      rw [handleLeave_some_noroom s sid info hc hr]
      rfl
    | some r =>
      rw [handleLeave_some s sid info r hc hr]
      rw [historyOf_mk_mapSet]
      by_cases hn : info.room = n
      · subst hn
        rw [if_pos rfl]
        simp [historyOf, hr]
      · rw [if_neg hn]
        rfl

theorem historyOf_handleDisconnect (s : ServerState) (sid : Nat) (n : String) :
    historyOf (handleDisconnect s sid).1 n = historyOf s n := by
  cases hc : mapGet s.clients sid with
  | none => rw [handleDisconnect_none s sid hc]
  | some info =>
    cases hr : mapGet s.rooms info.room with
    | none =>
      rw [handleDisconnect_some_noroom s sid info hc hr]
      rfl
    | some r =>
      rw [handleDisconnect_some s sid info r hc hr]
      rw [historyOf_mk_mapSet]
      by_cases hn : info.room = n
      · subst hn
        rw [if_pos rfl]
        simp [historyOf, hr]
      · rw [if_neg hn]
        rfl

theorem historyOf_step_log (s : ServerState) (e : Event) (n : String) :
    historyOf (step s e).1 n =
      ((msgStep s e).filterMap (fun p => if p.1 = n then some p.2 else none)).foldl
        appendHistory (historyOf s n) := by
  cases e with
  | joinRoom sid u rm =>
    rw [step, historyOf_handleJoin]
    simp [msgStep]
  | leaveRoom sid =>
    rw [step, historyOf_handleLeave]
    simp [msgStep]
  | chatMessage sid text now =>
    cases hc : mapGet s.clients sid with
    | none =>
      rw [step, handleChat_none s sid text now hc]
      simp [msgStep, hc]
    | some info =>
      rw [step, historyOf_handleChat_some s sid text now info n hc]
      simp only [msgStep, hc]
      by_cases hn : info.room = n
      · subst hn
        simp
      · simp [hn]
  | typing sid =>
    rw [step, handleTyping_fst]
    simp [msgStep]
  | stopTyping sid =>
    rw [step, handleStopTyping_fst]
    simp [msgStep]
  | privateMessage sid toName msgBody now =>
    rw [step, handlePrivate_fst]
    simp [msgStep]
  | disconnect sid =>
    rw [step, historyOf_handleDisconnect]
    simp [msgStep]

theorem historyOf_runFrom (tr : List Event) : ∀ (s : ServerState)
    (f : String → List Message),
    (∀ n, historyOf s n = takeLast 200 (f n)) →
    ∀ n, historyOf (runFrom s tr) n =
      takeLast 200 (f n ++ (msgLogFrom s tr).filterMap
        (fun p => if p.1 = n then some p.2 else none)) := by
  induction tr with
  | nil =>
    intro s f h n
    simp [runFrom, msgLogFrom, h n]
  | cons e rest ih =>
    intro s f h n
    rw [runFrom, msgLogFrom]
    have hstep : ∀ n₁, historyOf (step s e).1 n₁ =
        takeLast 200 (f n₁ ++ (msgStep s e).filterMap
          (fun p => if p.1 = n₁ then some p.2 else none)) := by
      intro n₁
      rw [historyOf_step_log, h n₁]
      cases e with
      | chatMessage sid text now =>
        cases hc : mapGet s.clients sid with
        | none => simp [msgStep, hc]
        | some info =>
          simp only [msgStep, hc]
          by_cases hn : info.room = n₁
          · subst hn
            simp [takeLast_appendHistory]
          · simp [hn]
      | joinRoom sid u rm => simp [msgStep]
      | leaveRoom sid => simp [msgStep]
      | typing sid => simp [msgStep]
      | stopTyping sid => simp [msgStep]
      | privateMessage sid toName msgBody now => simp [msgStep]
      | disconnect sid => simp [msgStep]
    have hrec := ih (step s e).1
      (fun n₁ => f n₁ ++ (msgStep s e).filterMap
        (fun p => if p.1 = n₁ then some p.2 else none)) hstep n
    rw [hrec, List.filterMap_append, List.append_assoc]

/-! ### Claims -/

/-- Claim C1, counterexample to the claim as stated: after socket 1 joins room
"A" and then joins room "B" without leaving, room "A" still has a roster entry
for socket 1 (a ghost member) while no session in the Registry has room "A",
so the roster size (1) differs from the session count (0). -/
theorem roster_registry_counterexample :
    roomUsers (run [.joinRoom 1 (some "alice") (some "A"),
      .joinRoom 1 (some "alice") (some "B")]) "A" = [(1, "alice")] ∧
    regList (run [.joinRoom 1 (some "alice") (some "A"),
      .joinRoom 1 (some "alice") (some "B")]) "A" = [] ∧
    (roomUsers (run [.joinRoom 1 (some "alice") (some "A"),
      .joinRoom 1 (some "alice") (some "B")]) "A").length ≠
      (regList (run [.joinRoom 1 (some "alice") (some "A"),
        .joinRoom 1 (some "alice") (some "B")]) "A").length := by
  refine ⟨by decide, by decide, by decide⟩

/-- Claim C1 (amended): for every trace in which no connection joins a room
while still joined to a different one, every room's roster equals, entry for
entry, the list of Registry sessions whose room field is that room's name
(hence equal sizes and equal display-name lists), and every roster (`users`)
broadcast emitted while handling an event of the trace equals the display
names of the connections associated with that room in the Registry right
after that event. -/
theorem roster_matches_registry_on_clean_traces (tr : List Event)
    (h : clean tr = true) :
    (∀ n, roomUsers (run tr) n = regList (run tr) n) ∧
    (∀ pre e post, tr = pre ++ e :: post →
      ∀ n l, (Target.toRoom n, Out.users l) ∈ (step (run pre) e).2 →
        l = (regList (step (run pre) e).1 n).map Prod.snd) := by
  constructor
  · exact (inv_runFrom tr initState inv_initState h).2
  · intro pre e post htr n l hmem
    subst htr
    have hsplit := cleanFrom_append pre initState e post h
    have hinv := inv_runFrom pre initState inv_initState hsplit.1
    exact users_emit_step (runFrom initState pre) e hinv hsplit.2 n l hmem

/-- Witness for C1: a concrete clean trace (two joins, a message, a leave)
on which the roster/Registry equality holds for room "General". -/
theorem roster_matches_registry_on_clean_traces_witness :
    clean [.joinRoom 1 (some "alice") (some "General"),
      .joinRoom 2 (some "bob") (some "General"),
      .chatMessage 1 "hi" 3, .leaveRoom 1] = true ∧
    roomUsers (run [.joinRoom 1 (some "alice") (some "General"),
      .joinRoom 2 (some "bob") (some "General"),
      .chatMessage 1 "hi" 3, .leaveRoom 1]) "General" =
      regList (run [.joinRoom 1 (some "alice") (some "General"),
        .joinRoom 2 (some "bob") (some "General"),
        .chatMessage 1 "hi" 3, .leaveRoom 1]) "General" :=
  ⟨by decide,
    (roster_matches_registry_on_clean_traces
      [.joinRoom 1 (some "alice") (some "General"),
        .joinRoom 2 (some "bob") (some "General"),
        .chatMessage 1 "hi" 3, .leaveRoom 1] (by decide)).1 "General"⟩

/-- Claim C2, counterexample to the claim as stated: if the join payload omits
the `room` field, JS `String(undefined)` is the non-empty string "undefined",
so the stored room is "undefined", not the claimed default "General". -/
theorem join_absent_room_counterexample :
    mapGet (step initState (.joinRoom 1 (some "alice") none)).1.clients 1 =
      some ⟨"alice", "undefined"⟩ ∧ ("undefined" : String) ≠ "General" := by
  refine ⟨by decide, by decide⟩

/-- Claim C2 (amended): the stored session of every `joinRoom(username, room)`
has display name `String(username).trim().substring(0,32)` with "Anonymous"
substituted when that is empty (so at most 32 characters), and room name
`String(room).trim()` with "General" substituted only when that trimmed
string is empty; an absent room field coerces to the literal string
"undefined" and is stored as the room name. -/
theorem join_normalizes_username_and_room (s : ServerState) (sid : Nat)
    (u rm : Option String) :
    mapGet (step s (.joinRoom sid u rm)).1.clients sid =
      some ⟨normUsername u, normRoom rm⟩ ∧
    normUsername u =
      (if jsSubstring (jsTrim (jsString u)) 32 = "" then "Anonymous"
       else jsSubstring (jsTrim (jsString u)) 32) ∧
    (normUsername u).data.length ≤ 32 ∧
    normRoom rm =
      (if jsTrim (jsString rm) = "" then "General" else jsTrim (jsString rm)) ∧
    normRoom none = "undefined" := by
  refine ⟨?_, rfl, ?_, rfl, by decide⟩
  · rw [step, clients_handleJoin, mapGet_mapSet, if_pos rfl]
  · unfold normUsername
    by_cases hz : jsSubstring (jsTrim (jsString u)) 32 = ""
    · rw [if_pos hz]
      decide
    · rw [if_neg hz]
      show ((jsTrim (jsString u)).data.take 32).length ≤ 32
      simp only [List.length_take]
      omega

/-- Claim C3: appending a message to a history that already holds 200 entries
evicts exactly the oldest entry and no other; for every trace, every room's
history has length at most 200 and equals the 200 most recently appended
messages of that room, in append order. -/
theorem history_retention (tr : List Event) (n : String) :
    historyOf (run tr) n = takeLast 200 (appendedTo tr n) ∧
    (historyOf (run tr) n).length ≤ 200 ∧
    (∀ (h : List Message) (m : Message), h.length = 200 →
      appendHistory h m = h.tail ++ [m]) := by
  have hbase : ∀ n₁, historyOf initState n₁ = takeLast 200 ([] : List Message) := by
    intro n₁
    simp [initState, historyOf, mapGet, takeLast]
  have hmain := historyOf_runFrom tr initState (fun _ => []) hbase n
  rw [List.nil_append] at hmain
  refine ⟨hmain, ?_, appendHistory_at_cap⟩
  show (historyOf (runFrom initState tr) n).length ≤ 200
  rw [hmain, length_takeLast]
  omega

/-- Witness for C3: at a history of exactly 200 entries, appending evicts
exactly the oldest entry. -/
theorem history_retention_witness :
    appendHistory (List.replicate 200 ⟨"a", "x", 0⟩) ⟨"b", "y", 1⟩ =
      (List.replicate 200 (Message.mk "a" "x" 0)).tail ++ [⟨"b", "y", 1⟩] :=
  (history_retention [] "General").2.2 (List.replicate 200 ⟨"a", "x", 0⟩)
    ⟨"b", "y", 1⟩ (by rw [List.length_replicate])

/-- Claim C4: a `chatMessage(text)` from a connection with a session appends
to the session's room history a message whose author is the session's
username, whose text is the input truncated to 1000 characters and whose
timestamp is the engine-assigned receipt time `now` (at least the issue
time), and broadcasts exactly that message to the whole room (`io.to(room)`,
sender included). -/
theorem chat_roundtrip (s : ServerState) (sid : Nat) (text : String)
    (issued now : Nat) (info : Session)
    (hsess : mapGet s.clients sid = some info) (hts : issued ≤ now) :
    historyOf (step s (.chatMessage sid text now)).1 info.room =
      appendHistory (historyOf s info.room)
        ⟨info.username, jsSubstring text 1000, now⟩ ∧
    (historyOf (step s (.chatMessage sid text now)).1 info.room).getLast? =
      some ⟨info.username, jsSubstring text 1000, now⟩ ∧
    issued ≤ (Message.mk info.username (jsSubstring text 1000) now).ts ∧
    (step s (.chatMessage sid text now)).2 =
      [(Target.toRoom info.room,
        Out.message ⟨info.username, jsSubstring text 1000, now⟩)] := by
  have hh : historyOf (step s (.chatMessage sid text now)).1 info.room =
      appendHistory (historyOf s info.room)
        ⟨info.username, jsSubstring text 1000, now⟩ := by
    rw [step, historyOf_handleChat_some s sid text now info info.room hsess,
      if_pos rfl]
  refine ⟨hh, ?_, hts, ?_⟩
  · rw [hh, getLast?_appendHistory]
  · rw [step, emits_handleChat_some s sid text now info hsess]

/-- Witness for C4: a concrete joined client sends "hi" issued at time 5,
received at time 9. -/
theorem chat_roundtrip_witness :
    mapGet (ServerState.mk [("General", ⟨[(1, "alice")], []⟩)]
        [(1, ⟨"alice", "General"⟩)]).clients 1 =
      some ⟨"alice", "General"⟩ ∧ (5 : Nat) ≤ 9 ∧
    historyOf (step (ServerState.mk [("General", ⟨[(1, "alice")], []⟩)]
        [(1, ⟨"alice", "General"⟩)]) (.chatMessage 1 "hi" 9)).1 "General" =
      appendHistory (historyOf (ServerState.mk
        [("General", ⟨[(1, "alice")], []⟩)] [(1, ⟨"alice", "General"⟩)])
        "General") ⟨"alice", jsSubstring "hi" 1000, 9⟩ :=
  ⟨by decide, by decide,
    (chat_roundtrip (ServerState.mk [("General", ⟨[(1, "alice")], []⟩)]
      [(1, ⟨"alice", "General"⟩)]) 1 "hi" 5 9 ⟨"alice", "General"⟩
      (by decide) (by decide)).1⟩

/-- Claim C5: a `privateMessage(to, message)` from a joined connection whose
room roster has a first entry with display name exactly `to` delivers the
private message (from, text, timestamp) to that resolved connection only,
sends the sender the confirmation notice "Private message sent to <to>", and
leaves the whole server state (in particular the room history) unchanged. -/
theorem private_message_delivery (s : ServerState) (sid : Nat)
    (toName msgBody : String) (now : Nat) (info : Session) (r : Room)
    (p : Nat × String)
    (hsess : mapGet s.clients sid = some info)
    (hroom : mapGet s.rooms info.room = some r)
    (hfind : r.users.find? (fun q => q.2 == toName) = some p) :
    step s (.privateMessage sid toName msgBody now) =
      (s, [(Target.toSocket p.1, Out.privateMessage info.username msgBody now),
           (Target.toSocket sid,
             Out.system ("Private message sent to " ++ toName))]) ∧
    p.2 = toName := by
  constructor
  · rw [step]
    simp [handlePrivate, hsess, hroom, hfind]
  · have := List.find?_some hfind
    exact eq_of_beq this

/-- Witness for C5: alice sends "secret" to bob in a two-member room; bob
(socket 2) alone receives it, alice gets the confirmation notice, and the
state is unchanged. -/
theorem private_message_delivery_witness :
    mapGet (ServerState.mk
        [("General", ⟨[(1, "alice"), (2, "bob")], []⟩)]
        [(1, ⟨"alice", "General"⟩), (2, ⟨"bob", "General"⟩)]).clients 1 =
      some ⟨"alice", "General"⟩ ∧
    step (ServerState.mk [("General", ⟨[(1, "alice"), (2, "bob")], []⟩)]
        [(1, ⟨"alice", "General"⟩), (2, ⟨"bob", "General"⟩)])
      (.privateMessage 1 "bob" "secret" 7) =
      (ServerState.mk [("General", ⟨[(1, "alice"), (2, "bob")], []⟩)]
        [(1, ⟨"alice", "General"⟩), (2, ⟨"bob", "General"⟩)],
       [(Target.toSocket 2, Out.privateMessage "alice" "secret" 7),
        (Target.toSocket 1, Out.system ("Private message sent to " ++ "bob"))]) :=
  ⟨by decide,
    (private_message_delivery (ServerState.mk
        [("General", ⟨[(1, "alice"), (2, "bob")], []⟩)]
        [(1, ⟨"alice", "General"⟩), (2, ⟨"bob", "General"⟩)])
      1 "bob" "secret" 7 ⟨"alice", "General"⟩ ⟨[(1, "alice"), (2, "bob")], []⟩
      (2, "bob") (by decide) (by decide) (by decide)).1⟩

/-- Claim C6: a `chatMessage` from a connection with no session replies to the
sender alone with the system notice "Please join a room first" and changes
no state (the returned state is the input state, so no room or Registry
entry moves). -/
theorem chat_unjoined_error (s : ServerState) (sid : Nat) (text : String)
    (now : Nat) (h : mapGet s.clients sid = none) :
    step s (.chatMessage sid text now) =
      (s, [(Target.toSocket sid, Out.system "Please join a room first")]) := by
  rw [step]
  exact handleChat_none s sid text now h

/-- Witness for C6: a never-joined socket 3 sends "x" at the initial state. -/
theorem chat_unjoined_error_witness :
    mapGet initState.clients 3 = none ∧
    step initState (.chatMessage 3 "x" 7) =
      (initState, [(Target.toSocket 3, Out.system "Please join a room first")]) :=
  ⟨by decide, chat_unjoined_error initState 3 "x" 7 (by decide)⟩

/-- Claim C7: the history carried by the `joined` event sent to a joiner is
exactly the last 50 entries of the room's stored history (so at most 50),
a suffix of it, in stored (oldest-first, append) order. -/
theorem join_history_at_most_50 (s : ServerState) (sid : Nat)
    (u rm : Option String) :
    (step s (.joinRoom sid u rm)).2 =
      [(Target.toRoomExcept (normRoom rm) sid,
          Out.system (normUsername u ++ " has joined the room")),
       (Target.toRoom (normRoom rm),
          Out.users ((mapSet (roomUsers s (normRoom rm)) sid
            (normUsername u)).map Prod.snd)),
       (Target.toSocket sid,
          Out.joined (normRoom rm) (normUsername u)
            ((mapSet (roomUsers s (normRoom rm)) sid
              (normUsername u)).map Prod.snd)
            (takeLast 50 (historyOf s (normRoom rm))))] ∧
    (takeLast 50 (historyOf s (normRoom rm))).length ≤ 50 ∧
    (takeLast 50 (historyOf s (normRoom rm))).IsSuffix
      (historyOf s (normRoom rm)) := by
  refine ⟨?_, ?_, takeLast_suffix 50 _⟩
  · rw [step]
    exact emits_handleJoin s sid u rm
  · rw [length_takeLast]
    omega

/-- Claim C8: a `leaveRoom` from a connection with no session is a complete
no-op: the state is returned unchanged and no event is emitted to anyone. -/
theorem leave_unjoined_noop (s : ServerState) (sid : Nat)
    (h : mapGet s.clients sid = none) :
    step s (.leaveRoom sid) = (s, []) := by
  rw [step]
  exact handleLeave_none s sid h

/-- Witness for C8: leave by never-joined socket 9 at the initial state. -/
theorem leave_unjoined_noop_witness :
    mapGet initState.clients 9 = none ∧
    step initState (.leaveRoom 9) = (initState, []) :=
  ⟨by decide, leave_unjoined_noop initState 9 (by decide)⟩

/-- Claim C9: when a connection has a session but its room record is absent
from the Room Store, `chatMessage` creates the room (empty roster) with the
new message as its whole history and broadcasts it — never a "Room not
found" error — whereas `privateMessage` from the same state replies to the
sender with the system notice "Room not found" and mutates nothing. -/
theorem chat_creates_room_private_reports_missing (s : ServerState)
    (sid : Nat) (text toName msgBody : String) (now : Nat) (info : Session)
    (hsess : mapGet s.clients sid = some info)
    (hroom : mapGet s.rooms info.room = none) :
    mapGet (step s (.chatMessage sid text now)).1.rooms info.room =
      some ⟨[], [⟨info.username, jsSubstring text 1000, now⟩]⟩ ∧
    (step s (.chatMessage sid text now)).2 =
      [(Target.toRoom info.room,
        Out.message ⟨info.username, jsSubstring text 1000, now⟩)] ∧
    step s (.privateMessage sid toName msgBody now) =
      (s, [(Target.toSocket sid, Out.system "Room not found")]) := by
  refine ⟨?_, ?_, ?_⟩
  · rw [step]
    simp [handleChat, ensureRoom, hsess, hroom, mapGet_mapSet, appendHistory,
      mapSet]
  · rw [step]
    exact emits_handleChat_some s sid text now info hsess
  · rw [step]
    simp [handlePrivate, hsess, hroom]

/-- Witness for C9: socket 1 has a session for room "A" but no room record
exists (the Room Store is empty). -/
theorem chat_creates_room_private_reports_missing_witness :
    mapGet (ServerState.mk [] [(1, ⟨"alice", "A"⟩)]).clients 1 =
      some ⟨"alice", "A"⟩ ∧
    mapGet (ServerState.mk [] [(1, ⟨"alice", "A"⟩)]).rooms "A" = none ∧
    mapGet (step (ServerState.mk [] [(1, ⟨"alice", "A"⟩)])
        (.chatMessage 1 "hello" 4)).1.rooms "A" =
      some ⟨[], [⟨"alice", jsSubstring "hello" 1000, 4⟩]⟩ :=
  ⟨by decide, by decide,
    (chat_creates_room_private_reports_missing
      (ServerState.mk [] [(1, ⟨"alice", "A"⟩)]) 1 "hello" "bob" "m" 4
      ⟨"alice", "A"⟩ (by decide) (by decide)).1⟩

/-- Claim C10: a successful `privateMessage` delivers the input body exactly
as received (no trimming, no 1000-character truncation), while `chatMessage`
broadcasts and stores the text truncated to at most 1000 characters. -/
theorem private_body_verbatim_chat_truncates (s : ServerState) (sid : Nat)
    (toName msgBody text : String) (now : Nat) (info : Session) (r : Room)
    (p : Nat × String)
    (hsess : mapGet s.clients sid = some info)
    (hroom : mapGet s.rooms info.room = some r)
    (hfind : r.users.find? (fun q => q.2 == toName) = some p) :
    (step s (.privateMessage sid toName msgBody now)).2 =
      [(Target.toSocket p.1, Out.privateMessage info.username msgBody now),
       (Target.toSocket sid,
         Out.system ("Private message sent to " ++ toName))] ∧
    (step s (.chatMessage sid text now)).2 =
      [(Target.toRoom info.room,
        Out.message ⟨info.username, jsSubstring text 1000, now⟩)] ∧
    (jsSubstring text 1000).data.length ≤ 1000 := by
  refine ⟨?_, ?_, ?_⟩
  · rw [step]
    simp [handlePrivate, hsess, hroom, hfind]
  · rw [step]
    exact emits_handleChat_some s sid text now info hsess
  · show ((text.data.take 1000)).length ≤ 1000
    simp only [List.length_take]
    omega

/-- Witness for C10: a 1001-character private body is delivered verbatim
(length 1001) from alice to bob, while `jsSubstring` caps chat text at 1000. -/
theorem private_body_verbatim_chat_truncates_witness :
    (String.mk (List.replicate 1001 'z')).data.length = 1001 ∧
    (step (ServerState.mk [("General", ⟨[(1, "alice"), (2, "bob")], []⟩)]
        [(1, ⟨"alice", "General"⟩), (2, ⟨"bob", "General"⟩)])
      (.privateMessage 1 "bob" (String.mk (List.replicate 1001 'z')) 7)).2 =
      [(Target.toSocket 2, Out.privateMessage "alice"
          (String.mk (List.replicate 1001 'z')) 7),
       (Target.toSocket 1, Out.system ("Private message sent to " ++ "bob"))] :=
  ⟨by
    show (List.replicate 1001 'z').length = 1001
    rw [List.length_replicate],
    (private_body_verbatim_chat_truncates
      (ServerState.mk [("General", ⟨[(1, "alice"), (2, "bob")], []⟩)]
        [(1, ⟨"alice", "General"⟩), (2, ⟨"bob", "General"⟩)])
      1 "bob" (String.mk (List.replicate 1001 'z')) "t" 7
      ⟨"alice", "General"⟩ ⟨[(1, "alice"), (2, "bob")], []⟩ (2, "bob")
      (by decide) (by decide) (by decide)).1⟩

end ChatServer
